import Mathlib

/-! Shallow embedding of the audio fingerprinting engine of `src/app.py`
(function `fingerprint_song`, lines 15-79), together with proofs of the
specified properties of its stages: spectrogram dB conversion, spectral
peak extraction, time-sorting, landmark pairing, key generation and
fingerprint assembly.

Modelling conventions:
* floating-point sample, time and frequency values are modelled as exact
  rationals; a numeric literal of the source is embedded as the rational
  it denotes;
* the spectrogram is modelled as a `Grid` of magnitude values (the array
  `np.abs(D)` of line 31); the short-time Fourier transform itself is an
  external library call that maps a waveform to that grid (it is linear,
  so an all-zero waveform yields the all-zero grid);
* the decode step `librosa.load` (line 27) is modelled as an
  `Except String (Grid x rational)` input: `.ok` carries the magnitude
  grid and the sample rate, `.error` a raised decoding exception;
* the logarithm appearing in the dB conversion is kept as an abstract
  parameter `log10q`, since no verified property depends on its values;
* Python `hash` on a tuple of floats (line 71) is embedded by the
  documented CPython semantics: numeric hashing by reduction modulo
  2^61 - 1 applied to the exact rational value, combined with the
  xxHash-style tuple mixing of CPython 3.8+. -/

/-- A Python value appearing inside a fingerprint entry: the source stores
the tuple `(song_id, anchor_time)` (line 72), whose components are a string
and a float. -/
inductive PyVal where
  | str (s : String)
  | num (q : ℚ)
deriving DecidableEq

/-- A fingerprint entry: one stored occurrence tuple (line 72). -/
abbrev Entry := PyVal × PyVal

/-- The fingerprint dictionary of line 52: an insertion-ordered mapping from
integer keys to lists of entries, as built by `setdefault(h, []).append(e)`. -/
abbrev Fingerprint := List (ℕ × List Entry)

/-- A 2-dimensional array of rationals; used for the magnitude spectrogram
`np.abs(D)` and the dB spectrogram `S_db` (rows = frequency bins,
columns = time frames). `val` is a total function; only indices below
`rows`/`cols` are meaningful. -/
structure Grid where
  rows : ℕ
  cols : ℕ
  val : ℕ → ℕ → ℚ

/-- The maximum of two rationals, computed directly through the core
comparison `Rat.blt` (definitionally equal to `max`, see `qmax_eq_max`);
used so that concrete instances evaluate with small recursion depth. -/
def qmax (a b : ℚ) : ℚ := if Rat.blt a b then b else a

/-- Reading a grid at integer offsets with the padding of
`scipy.ndimage.maximum_filter(..., mode='constant')` (line 35): positions
outside the array contribute the constant value `cval = 0.0` (the scipy
default). -/
def padVal (g : Grid) (i j : ℤ) : ℚ :=
  if 0 ≤ i ∧ i < (g.rows : ℤ) ∧ 0 ≤ j ∧ j < (g.cols : ℤ) then g.val i.toNat j.toNat else 0

/-- Maximum of the padded values of row `r`, window columns `j - 7` up to
`j - 7 + dj`: the row slice of the `15 x 15` all-ones footprint of
line 35. -/
def windowRowMax (g : Grid) (r j : ℤ) : ℕ → ℚ
  | 0 => padVal g r (j - 7)
  | dj + 1 => qmax (windowRowMax g r j dj) (padVal g r (j + (dj : ℤ) + 1 - 7))

/-- Maximum of the padded values over window rows `i - 7` up to
`i - 7 + di`, each row scanned across the full 15 window columns. -/
def windowMax (g : Grid) (i j : ℤ) : ℕ → ℚ
  | 0 => windowRowMax g (i - 7) j 14
  | di + 1 => qmax (windowMax g i j di) (windowRowMax g (i + (di : ℤ) + 1 - 7) j 14)

/-- `maximum_filter(S_db, footprint=np.ones((15, 15)), mode='constant')`
(line 35) at one cell: the maximum of the 225 values of the window of
offsets `-7 .. 7` around `(i, j)` in both axes, out-of-bounds positions
contributing the constant `0`. -/
def local_max (g : Grid) (i j : ℤ) : ℚ := windowMax g i j 14

/-- The amplitude threshold of line 37 (`-50.0` dB). -/
def amplitude_threshold : ℚ := -50

/-- `np.where((S_db == local_max) & (S_db > amplitude_threshold))`
(lines 36-38): the qualifying `(bin, frame)` cells in row-major (C) order,
exactly the order `np.where` reports them. -/
def peakCells (g : Grid) : List (ℕ × ℕ) :=
  (List.range g.rows).flatMap fun b =>
    (List.range g.cols).filterMap fun f =>
      if g.val b f = local_max g b f ∧ g.val b f > amplitude_threshold then some (b, f) else none

/-- `librosa.fft_frequencies(sr=sr, n_fft=n_fft)[bin]`: the centre frequency
`bin * sr / n_fft` of a frequency bin (line 46). -/
def fft_frequencies (sr : ℚ) (nfft : ℕ) (bin : ℕ) : ℚ :=
  (bin : ℚ) * sr / (nfft : ℚ)

/-- `librosa.frames_to_time(frames=frame, sr=sr, n_fft=n_fft)` with the
default `hop_length = 512` (line 47): `(frame * 512 + n_fft // 2) / sr`. -/
def frames_to_time (sr : ℚ) (nfft : ℕ) (frame : ℕ) : ℚ :=
  ((frame * 512 + nfft / 2 : ℕ) : ℚ) / sr

/-- A structured peak `(time, frequency)` as built by `zip(peak_times,
peak_freqs_at_peaks)` on line 48. -/
abbrev Peak := ℚ × ℚ

/-- Lines 45-48: `n_fft = (rows - 1) * 2`, then one `(time, frequency)` pair
per detected cell, in the row-major order `np.where` produced them. -/
def peaks_list (g : Grid) (sr : ℚ) : List Peak :=
  (peakCells g).map fun c =>
    (frames_to_time sr ((g.rows - 1) * 2) c.2, fft_frequencies sr ((g.rows - 1) * 2) c.1)

/-- Stable insertion of a peak into a list already sorted by time: the peak
goes after every element of strictly smaller time and before the first
element of greater-or-equal time, preserving the relative order of
equal-time elements. -/
def insertByTime (p : Peak) : List Peak → List Peak
  | [] => [p]
  | q :: l => if q.1 < p.1 then q :: insertByTime p l else p :: q :: l

/-- `sorted(peaks_list, key=lambda p: p[0])` (line 49): the stable sort by
ascending time, modelled by stable insertion sort (any stable sort by the
same key yields the same list). -/
def sortPeaksByTime : List Peak → List Peak
  | [] => []
  | p :: l => insertByTime p (sortPeaksByTime l)

/-- The membership test of line 69 for anchor `a` and candidate `t`:
`t_min <= target_time <= t_max and f_min <= target_freq <= f_max`, with
`t_min = anchor_time + 0.1`, `t_max = t_min + 0.8`,
`f_min = anchor_freq - 200`, `f_max = anchor_freq + 200` (lines 53-62). -/
def inZone (a t : Peak) : Prop :=
  a.1 + 1/10 ≤ t.1 ∧ t.1 ≤ a.1 + 1/10 + 4/5 ∧ a.2 - 200 ≤ t.2 ∧ t.2 ≤ a.2 + 200

instance (a t : Peak) : Decidable (inZone a t) := by
  unfold inZone; exact inferInstance

/-- The inner loop of lines 64-69 for one anchor: scan the later peaks in
list order, `break` as soon as a candidate time exceeds `t_max`, and keep
the candidates passing the membership test. -/
def scanTargets (a : Peak) : List Peak → List Peak
  | [] => []
  | t :: l =>
    if t.1 > a.1 + 1/10 + 4/5 then []
    else if inZone a t then t :: scanTargets a l else scanTargets a l

/-- The double loop of lines 57-68: every anchor `i` paired with its
accepted targets among the peaks after it, anchors in list order. -/
def pairPeaks : List Peak → List (Peak × Peak)
  | [] => []
  | a :: l => ((scanTargets a l).map fun t => (a, t)) ++ pairPeaks l

/-- The same double loop with the `break` of line 67 removed: a full scan of
all later peaks `j > i` with the same membership test. This definition
follows the specification words for the refinement claim; it is compared
against `pairPeaks`. -/
def pairPeaksFull : List Peak → List (Peak × Peak)
  | [] => []
  | a :: l => ((l.filter fun t => decide (inZone a t)).map fun t => (a, t)) ++ pairPeaksFull l

/-- The CPython numeric-hash modulus `2^61 - 1`. -/
def P61 : ℕ := 2 ^ 61 - 1

/-- Modular exponentiation by repeated squaring, with structural fuel so
that the kernel can evaluate it. -/
def powModFuel : ℕ → ℕ → ℕ → ℕ → ℕ
  | 0, _, _, _ => 1
  | fuel + 1, b, e, m =>
    if e = 0 then 1 % m
    else
      let h := powModFuel fuel (b * b % m) (e / 2) m
      if e % 2 = 1 then b % m * h % m else h

/-- `b ^ e % m` for exponents below `2 ^ 70`. -/
def powMod (b e m : ℕ) : ℕ := powModFuel 70 b e m

/-- CPython hash of the non-negative rational `|q|`: reduction modulo
`P61 = 2^61 - 1`, the denominator entering through its modular inverse
(documented CPython semantics of numeric hashing; a float hashes as its
exact rational value). -/
def pyHashNonneg (q : ℚ) : ℕ :=
  q.num.natAbs % P61 * powMod q.den (P61 - 2) P61 % P61

/-- CPython `hash` of a float with exact rational value `q`: the sign is
applied afterwards and a result of `-1` is replaced by `-2`. -/
def pyHashRat (q : ℚ) : ℤ :=
  let h : ℤ := if q < 0 then -(pyHashNonneg q : ℤ) else (pyHashNonneg q : ℤ)
  if h = -1 then -2 else h

/-- Reinterpret a signed hash as the 64-bit unsigned lane value
(`Py_uhash_t` cast). -/
def toU64 (z : ℤ) : ℕ := ((z % (2 ^ 64 : ℤ) + 2 ^ 64) % 2 ^ 64).toNat

/-- xxHash prime 1 used by the CPython tuple hash. -/
def XXP1 : ℕ := 11400714785074694791

/-- xxHash prime 2 used by the CPython tuple hash. -/
def XXP2 : ℕ := 14029467366897019727

/-- xxHash prime 5 used by the CPython tuple hash. -/
def XXP5 : ℕ := 2870177450012600261

/-- 64-bit rotate left by 31. -/
def rotl31 (x : ℕ) : ℕ := x * 2 ^ 31 % 2 ^ 64 + x / 2 ^ 33

/-- One lane-accumulation step of the CPython tuple hash
(`acc += lane * XXP2; acc = rotl(acc, 31); acc *= XXP1`, all mod `2^64`). -/
def mixLane (acc lane : ℕ) : ℕ := rotl31 ((acc + lane * XXP2) % 2 ^ 64) * XXP1 % 2 ^ 64

/-- CPython `hash` of a 3-tuple from the hashes of its components
(tupleobject.c, CPython 3.8+): xxHash-style accumulation, a final length
mix, and the reserved value `(Py_uhash_t)-1` replaced by `1546275796`. -/
def pyTupleHash3 (h1 h2 h3 : ℤ) : ℕ :=
  let acc := mixLane (mixLane (mixLane XXP5 (toU64 h1)) (toU64 h2)) (toU64 h3)
  let acc := (acc + (3 ^^^ (XXP5 ^^^ 3527539))) % 2 ^ 64
  if acc = 2 ^ 64 - 1 then 1546275796 else acc

/-- `hash((anchor_freq, target_freq, time_delta))` of line 71 on the exact
rational values of the three floats. -/
def pyHash3 (a b c : ℚ) : ℕ := pyTupleHash3 (pyHashRat a) (pyHashRat b) (pyHashRat c)

/-- The key of a landmark pair: line 70-71, `time_delta = target_time -
anchor_time` and the built-in tuple hash of
`(anchor_freq, target_freq, time_delta)`. -/
def keyOfPair (p : Peak × Peak) : ℕ := pyHash3 p.1.2 p.2.2 (p.2.1 - p.1.1)

/-- Line 72: `entry = (song_id, anchor_time)`. -/
def entryOf (sid : String) (p : Peak × Peak) : Entry :=
  (PyVal.str sid, PyVal.num p.1.1)

/-- The anchor time stored in an entry: its second component. -/
def entryTime (e : Entry) : ℚ :=
  match e.2 with
  | PyVal.num q => q
  | PyVal.str _ => 0

/-- `song_fingerprint.setdefault(h, []).append(entry)` (line 73) on an
insertion-ordered dictionary: append to the list of an existing key, or add
the key at the end with a one-element list. -/
def fpAppend : Fingerprint → ℕ → Entry → Fingerprint
  | [], k, e => [(k, [e])]
  | (k', l) :: fp, k, e =>
    if k' = k then (k', l ++ [e]) :: fp else (k', l) :: fpAppend fp k e

/-- Dictionary lookup in the assembled fingerprint. -/
def fpLookup : Fingerprint → ℕ → Option (List Entry)
  | [], _ => none
  | (k', l) :: fp, k => if k' = k then some l else fpLookup fp k

/-- Lines 52-73: fold the landmark pairs in production order into the
fingerprint dictionary, accumulating entries per key. -/
def assembleAcc (ps : List (Peak × Peak)) (sid : String) : Fingerprint :=
  ps.foldl (fun fp p => fpAppend fp (keyOfPair p) (entryOf sid p)) []

/-- Maximum of `g.val i 0 .. g.val i c`. -/
def gridRowMax (g : Grid) (i : ℕ) : ℕ → ℚ
  | 0 => g.val i 0
  | c + 1 => qmax (gridRowMax g i c) (g.val i (c + 1))

/-- Maximum of the full rows `0 .. r` of the grid. -/
def gridColMax (g : Grid) : ℕ → ℚ
  | 0 => gridRowMax g 0 (g.cols - 1)
  | r + 1 => qmax (gridColMax g r) (gridRowMax g (r + 1) (g.cols - 1))

/-- The maximum value of a grid (`np.max` over the array). -/
def gridMax (g : Grid) : ℚ := gridColMax g (g.rows - 1)

/-- The unclamped log spectrogram of `librosa.amplitude_to_db(M, ref=np.max)`
(line 31) on the magnitude grid `M`, parameterised by the base-10 logarithm
`log10q`: with the librosa defaults `amin = 1e-5` and `top_db = 80`,
`amplitude_to_db` computes `power_to_db(M^2, ref=np.max(M)^2, amin=1e-10,
top_db=80)`, whose unclamped value is
`10*log10(max(amin, M^2)) - 10*log10(max(amin, ref^2))`. -/
def logSpecGrid (log10q : ℚ → ℚ) (g : Grid) : Grid :=
  ⟨g.rows, g.cols, fun i j =>
    10 * log10q (max (1 / 10 ^ 10) (g.val i j ^ 2)) -
      10 * log10q (max (1 / 10 ^ 10) (gridMax g ^ 2))⟩

/-- The final `top_db` clamp of librosa `power_to_db`: every value is
clamped from below at `(maximum of the log spectrogram) - 80`. -/
def amplitude_to_db (log10q : ℚ → ℚ) (g : Grid) : Grid :=
  ⟨g.rows, g.cols, fun i j =>
    max ((logSpecGrid log10q g).val i j) (gridMax (logSpecGrid log10q g) - 80)⟩

/-- Lines 30-75 of `fingerprint_song`, from the magnitude spectrogram on:
dB conversion, peak detection, the early return of lines 40-42 (which
tests `peaks[0].any()`, i.e. whether some detected cell has a nonzero bin
index), peak structuring, time sort, pairing and assembly. -/
def fingerprintFromMags (log10q : ℚ → ℚ) (mags : Grid) (sr : ℚ) (sid : String) : Fingerprint :=
  if (peakCells (amplitude_to_db log10q mags)).any (fun c => c.1 != 0) then
    assembleAcc
      (pairPeaks (sortPeaksByTime (peaks_list (amplitude_to_db log10q mags) sr))) sid
  else []

/-- The whole of `fingerprint_song` (lines 15-79): the `try` block runs the
pipeline on the decoded audio, and the broad `except Exception` handler of
lines 77-79 turns any raised exception (decode failure included) into the
empty dictionary `{}`. -/
def fingerprint_song (log10q : ℚ → ℚ) (loaded : Except String (Grid × ℚ))
    (sid : String) : Fingerprint :=
  match loaded with
  | .error _ => []
  | .ok (mags, sr) => fingerprintFromMags log10q mags sr sid

/-- The all-zero magnitude grid: the spectrogram magnitude of an all-zero
waveform (the short-time Fourier transform is linear, so digital silence
yields exactly zero magnitudes). -/
def zeroGrid (r c : ℕ) : Grid := ⟨r, c, fun _ _ => 0⟩

/-- Reading a grid at integer offsets where out-of-bounds positions are
treated as the minimum possible value: they are replaced by the supplied
in-window value `c`, so they can never become the window maximum.
This follows the specification words for the boundary claim. -/
def padValMin (g : Grid) (c : ℚ) (i j : ℤ) : ℚ :=
  if 0 ≤ i ∧ i < (g.rows : ℤ) ∧ 0 ≤ j ∧ j < (g.cols : ℤ) then g.val i.toNat j.toNat else c

/-- Row slice of the window maximum with minimum-value boundary
semantics. -/
def windowRowMaxInB (g : Grid) (c : ℚ) (r j : ℤ) : ℕ → ℚ
  | 0 => padValMin g c r (j - 7)
  | dj + 1 => qmax (windowRowMaxInB g c r j dj) (padValMin g c r (j + (dj : ℤ) + 1 - 7))

/-- Window maximum with minimum-value boundary semantics, rows
`i - 7 .. i - 7 + di`. -/
def windowMaxInB (g : Grid) (c : ℚ) (i j : ℤ) : ℕ → ℚ
  | 0 => windowRowMaxInB g c (i - 7) j 14
  | di + 1 => qmax (windowMaxInB g c i j di) (windowRowMaxInB g c (i + (di : ℤ) + 1 - 7) j 14)

/-- The maximum over the in-bounds part of the `15 x 15` window centred on
the in-bounds cell `(i, j)`: the specification reading in which cells
outside the spectrogram bounds are treated as the minimum possible value
(here realised by substituting the centre value, itself part of the
window, for out-of-bounds positions). Compared against the implemented
`local_max`. -/
def local_max_inb (g : Grid) (i j : ℤ) : ℚ :=
  windowMaxInB g (g.val i.toNat j.toNat) i j 14

/-- The nearest-integer quantization named by the key claim (frequencies to
the nearest Hz, time delta to the nearest millisecond). -/
def quantizeHz (q : ℚ) : ℤ := round q

/-- Millisecond quantization of a time delta named by the key claim. -/
def quantizeMs (q : ℚ) : ℤ := round (q * 1000)

/-- Concrete `1 x 1` dB grid holding `-10` dB: an edge cell that dominates
the in-bounds part of its window but lies below the `0` padding value. -/
def gEdge : Grid := ⟨1, 1, fun _ _ => -10⟩

/-- Concrete `2 x 2` dB grid holding `-10` dB everywhere. -/
def gEdgeW : Grid := ⟨2, 2, fun _ _ => -10⟩

/-- Concrete time-sorted peak list with one in-zone pair. -/
def peaksW : List Peak := [(0, 100), (1/5, 150)]

/-- Concrete landmark pair: anchor `(0, 100)`, target `(1/5, 150)`. -/
def pairA : Peak × Peak := ((0, 100), (1/5, 150))

/-- Concrete landmark pair with the same frequencies and time delta as
`pairA` but a later anchor, hence the same fingerprint key. -/
def pairB : Peak × Peak := ((1, 100), (6/5, 150))

/-! ## Helper lemmas -/

attribute [local semireducible] Rat.add Rat.mul Rat.sub Rat.inv Rat.ofScientific

theorem qmax_eq_max (a b : ℚ) : qmax a b = max a b := by
  unfold qmax
  split
  · next h => exact (max_eq_right (le_of_lt h)).symm
  · next h => exact (max_eq_left (le_of_not_lt h)).symm

theorem le_windowRowMax (g : Grid) (r j : ℤ) :
    ∀ dj dj' : ℕ, dj' ≤ dj → padVal g r (j + (dj' : ℤ) - 7) ≤ windowRowMax g r j dj := by
  intro dj
  induction dj with
  | zero =>
    intro dj' h
    interval_cases dj'
    simp [windowRowMax]
  | succ d ih =>
    intro dj' h
    rw [windowRowMax, qmax_eq_max]
    rcases Nat.lt_succ_iff_lt_or_eq.mp (Nat.lt_succ_of_le h) with h' | h'
    · exact le_trans (ih dj' (Nat.lt_succ_iff.mp h')) (le_max_left _ _)
    · subst h'
      apply le_of_eq_of_le _ (le_max_right _ _)
      congr 1
      push_cast
      ring

theorem le_windowMax (g : Grid) (i j : ℤ) :
    ∀ di di' : ℕ, di' ≤ di → windowRowMax g (i + (di' : ℤ) - 7) j 14 ≤ windowMax g i j di := by
  intro di
  induction di with
  | zero =>
    intro di' h
    interval_cases di'
    simp [windowMax]
  | succ d ih =>
    intro di' h
    rw [windowMax, qmax_eq_max]
    rcases Nat.lt_succ_iff_lt_or_eq.mp (Nat.lt_succ_of_le h) with h' | h'
    · exact le_trans (ih di' (Nat.lt_succ_iff.mp h')) (le_max_left _ _)
    · subst h'
      apply le_of_eq_of_le _ (le_max_right _ _)
      congr 2
      push_cast
      ring

theorem padVal_le_local_max (g : Grid) (i j : ℤ) (di dj : ℕ)
    (hdi : di ≤ 14) (hdj : dj ≤ 14) :
    padVal g (i + (di : ℤ) - 7) (j + (dj : ℤ) - 7) ≤ local_max g i j :=
  le_trans (le_windowRowMax g (i + (di : ℤ) - 7) j 14 dj hdj)
    (le_windowMax g i j 14 di hdi)

theorem mem_peakCells (g : Grid) (b f : ℕ) :
    (b, f) ∈ peakCells g ↔
      b < g.rows ∧ f < g.cols ∧ g.val b f = local_max g b f ∧
        g.val b f > amplitude_threshold := by
  unfold peakCells
  simp only [List.mem_flatMap, List.mem_filterMap, List.mem_range]
  constructor
  · rintro ⟨b', hb', f', hf', hsome⟩
    split at hsome
    · next hcond =>
      obtain ⟨rfl, rfl⟩ := Prod.mk.injEq .. |>.mp (Option.some.injEq .. |>.mp hsome)
      exact ⟨hb', hf', hcond.1, hcond.2⟩
    · exact absurd hsome (by simp)
  · rintro ⟨hb, hf, heq, hgt⟩
    exact ⟨b, hb, f, hf, by rw [if_pos ⟨heq, hgt⟩]⟩

theorem mem_scanTargets (a : Peak) :
    ∀ l t, t ∈ scanTargets a l → inZone a t := by
  intro l
  induction l with
  | nil => intro t h; simp [scanTargets] at h
  | cons q l ih =>
    intro t h
    rw [scanTargets] at h
    split at h
    · simp at h
    · split at h
      · next hz =>
        rcases List.mem_cons.mp h with rfl | h'
        · exact hz
        · exact ih t h'
      · exact ih t h

theorem mem_pairPeaks (l : List Peak) (p : Peak × Peak) (h : p ∈ pairPeaks l) :
    p.1 ∈ l ∧ inZone p.1 p.2 := by
  induction l with
  | nil => simp [pairPeaks] at h
  | cons a l ih =>
    rw [pairPeaks] at h
    rcases List.mem_append.mp h with h' | h'
    · obtain ⟨t, ht, rfl⟩ := List.mem_map.mp h'
      exact ⟨List.mem_cons_self .., mem_scanTargets a l t ht⟩
    · obtain ⟨h1, h2⟩ := ih h'
      exact ⟨List.mem_cons_of_mem a h1, h2⟩

theorem scanTargets_eq_filter (a : Peak) :
    ∀ l : List Peak, l.Pairwise (fun p q => p.1 ≤ q.1) →
      scanTargets a l = l.filter fun t => decide (inZone a t) := by
  intro l
  induction l with
  | nil => intro _; rfl
  | cons t l ih =>
    intro h
    rw [scanTargets]
    split
    · next hgt =>
      symm
      apply List.filter_eq_nil_iff.mpr
      intro x hx
      simp only [decide_eq_true_eq]
      intro hz
      rcases List.mem_cons.mp hx with rfl | hx'
      · exact absurd hz.2.1 (not_le.mpr hgt)
      · have hle := (List.pairwise_cons.mp h).1 x hx'
        exact absurd hz.2.1 (not_le.mpr (lt_of_lt_of_le hgt hle))
    · next hle =>
      by_cases hz : inZone a t
      · rw [if_pos hz, List.filter_cons, if_pos (by simpa using hz),
          ih (List.pairwise_cons.mp h).2]
      · rw [if_neg hz, List.filter_cons, if_neg (by simpa using hz)]
        exact ih (List.pairwise_cons.mp h).2

theorem pairPeaks_eq_pairPeaksFull' (l : List Peak)
    (h : l.Pairwise fun p q => p.1 ≤ q.1) : pairPeaks l = pairPeaksFull l := by
  induction l with
  | nil => rfl
  | cons a l ih =>
    rw [pairPeaks, pairPeaksFull, scanTargets_eq_filter a l (List.pairwise_cons.mp h).2,
      ih (List.pairwise_cons.mp h).2]

theorem pairwise_rel_of_forall {α : Type} {R : α → α → Prop} (h : ∀ x y, R x y) :
    ∀ l : List α, l.Pairwise R
  | [] => .nil
  | a :: l => .cons (fun y _ => h a y) (pairwise_rel_of_forall h l)

theorem pairPeaks_anchor_mono (l : List Peak) (h : l.Pairwise fun p q => p.1 ≤ q.1) :
    (pairPeaks l).Pairwise fun p q => p.1.1 ≤ q.1.1 := by
  induction l with
  | nil => exact .nil
  | cons a l ih =>
    rw [pairPeaks]
    refine List.pairwise_append.mpr
      ⟨?_, ih (List.pairwise_cons.mp h).2, ?_⟩
    · exact List.pairwise_map.mpr (pairwise_rel_of_forall (fun x y => le_refl a.1) _)
    · intro x hx y hy
      obtain ⟨t, _, rfl⟩ := List.mem_map.mp hx
      have hy1 := (mem_pairPeaks l y hy).1
      exact (List.pairwise_cons.mp h).1 y.1 hy1

theorem mem_insertByTime (p x : Peak) :
    ∀ l, x ∈ insertByTime p l ↔ x = p ∨ x ∈ l := by
  intro l
  induction l with
  | nil => simp [insertByTime]
  | cons q l ih =>
    rw [insertByTime]
    split
    · simp only [List.mem_cons, ih]
      tauto
    · simp only [List.mem_cons]

theorem mem_sortPeaksByTime (x : Peak) :
    ∀ l, x ∈ sortPeaksByTime l ↔ x ∈ l := by
  intro l
  induction l with
  | nil => simp [sortPeaksByTime]
  | cons p l ih =>
    rw [sortPeaksByTime, mem_insertByTime, ih, List.mem_cons]

theorem insertByTime_sorted (x : Peak) :
    ∀ l, l.Pairwise (fun p q => p.1 ≤ q.1) →
      (insertByTime x l).Pairwise (fun p q => p.1 ≤ q.1) := by
  intro l
  induction l with
  | nil => intro _; exact List.pairwise_singleton _ x
  | cons q l ih =>
    intro h
    rw [insertByTime]
    split
    · next hlt =>
      refine List.pairwise_cons.mpr ⟨?_, ih (List.pairwise_cons.mp h).2⟩
      intro y hy
      rcases (mem_insertByTime x y l).mp hy with rfl | hy'
      · exact le_of_lt hlt
      · exact (List.pairwise_cons.mp h).1 y hy'
    · next hge =>
      refine List.pairwise_cons.mpr ⟨?_, h⟩
      intro y hy
      rcases List.mem_cons.mp hy with rfl | hy'
      · exact not_lt.mp hge
      · exact le_trans (not_lt.mp hge) ((List.pairwise_cons.mp h).1 y hy')

theorem sortPeaksByTime_sorted :
    ∀ l : List Peak, (sortPeaksByTime l).Pairwise (fun p q => p.1 ≤ q.1) := by
  intro l
  induction l with
  | nil => exact .nil
  | cons p l ih => exact insertByTime_sorted p (sortPeaksByTime l) ih

theorem insertByTime_pairwise_lex (x : Peak) :
    ∀ l, l.Pairwise (fun p q : Peak => p.1 < q.1 ∨ (p.1 = q.1 ∧ p.2 < q.2)) →
      (∀ y ∈ l, x.1 = y.1 → x.2 < y.2) →
      (insertByTime x l).Pairwise (fun p q : Peak => p.1 < q.1 ∨ (p.1 = q.1 ∧ p.2 < q.2)) := by
  intro l
  induction l with
  | nil => intro _ _; exact List.pairwise_singleton _ x
  | cons q l ih =>
    intro h hx
    rw [insertByTime]
    split
    · next hlt =>
      refine List.pairwise_cons.mpr
        ⟨?_, ih (List.pairwise_cons.mp h).2 fun y hy => hx y (List.mem_cons_of_mem q hy)⟩
      intro y hy
      rcases (mem_insertByTime x y l).mp hy with rfl | hy'
      · exact Or.inl hlt
      · exact (List.pairwise_cons.mp h).1 y hy'
    · next hge =>
      refine List.pairwise_cons.mpr ⟨?_, h⟩
      intro y hy
      have hxq : x.1 ≤ q.1 := not_lt.mp hge
      rcases List.mem_cons.mp hy with rfl | hy'
      · rcases lt_or_eq_of_le hxq with hlt' | heq'
        · exact Or.inl hlt'
        · exact Or.inr ⟨heq', hx y (List.mem_cons_self ..) heq'⟩
      · rcases (List.pairwise_cons.mp h).1 y hy' with hqy | ⟨hqy1, _⟩
        · exact Or.inl (lt_of_le_of_lt hxq hqy)
        · rcases lt_or_eq_of_le (hqy1 ▸ hxq) with hlt' | heq'
          · exact Or.inl hlt'
          · exact Or.inr ⟨heq', hx y (List.mem_cons_of_mem q hy') heq'⟩

theorem sortPeaksByTime_pairwise_lex :
    ∀ l : List Peak, l.Pairwise (fun p q => p.1 = q.1 → p.2 < q.2) →
      (sortPeaksByTime l).Pairwise
        (fun p q : Peak => p.1 < q.1 ∨ (p.1 = q.1 ∧ p.2 < q.2)) := by
  intro l
  induction l with
  | nil => intro _; exact .nil
  | cons p l ih =>
    intro h
    rw [sortPeaksByTime]
    refine insertByTime_pairwise_lex p (sortPeaksByTime l) (ih (List.pairwise_cons.mp h).2) ?_
    intro y hy
    exact (List.pairwise_cons.mp h).1 y ((mem_sortPeaksByTime y l).mp hy)

theorem fpAppend_lookup (fp : Fingerprint) (k' : ℕ) (e : Entry) (k : ℕ) :
    fpLookup (fpAppend fp k' e) k =
      if k' = k then some ((fpLookup fp k).getD [] ++ [e]) else fpLookup fp k := by
  induction fp with
  | nil =>
    by_cases h : k' = k
    · subst h; simp [fpAppend, fpLookup]
    · simp [fpAppend, fpLookup, h]
  | cons kv fp ih =>
    obtain ⟨k0, l0⟩ := kv
    by_cases h0 : k0 = k'
    · subst h0
      by_cases h : k0 = k
      · subst h; simp [fpAppend, fpLookup]
      · simp [fpAppend, fpLookup, h]
    · by_cases h : k0 = k
      · subst h
        have hk : ¬ (k' = k0) := fun hh => h0 hh.symm
        simp [fpAppend, fpLookup, h0, hk]
      · simp [fpAppend, fpLookup, h0, h, ih]

theorem fpLookup_assemble_getD (sid : String) (k : ℕ) :
    ∀ (ps : List (Peak × Peak)) (fp : Fingerprint),
      (fpLookup (ps.foldl (fun fp p => fpAppend fp (keyOfPair p) (entryOf sid p)) fp) k).getD []
        = (fpLookup fp k).getD [] ++
            ((ps.filter fun p => decide (keyOfPair p = k)).map (entryOf sid)) := by
  intro ps
  induction ps with
  | nil => intro fp; simp
  | cons p ps ih =>
    intro fp
    rw [List.foldl_cons, ih (fpAppend fp (keyOfPair p) (entryOf sid p)), fpAppend_lookup]
    by_cases hk : keyOfPair p = k
    · have hd : (decide (keyOfPair p = k)) = true := by simpa using hk
      rw [if_pos hk, List.filter_cons, hd, if_pos rfl, List.map_cons, Option.getD_some,
        List.append_assoc, List.singleton_append]
    · have hd : (decide (keyOfPair p = k)) = false := by simpa using hk
      rw [if_neg hk, List.filter_cons, hd]
      simp only [Bool.false_eq_true, if_false]

theorem fpLookup_assemble_none (sid : String) (k : ℕ) :
    ∀ (ps : List (Peak × Peak)) (fp : Fingerprint),
      fpLookup (ps.foldl (fun fp p => fpAppend fp (keyOfPair p) (entryOf sid p)) fp) k = none ↔
        (fpLookup fp k = none ∧ (ps.filter fun p => decide (keyOfPair p = k)) = []) := by
  intro ps
  induction ps with
  | nil => intro fp; simp
  | cons p ps ih =>
    intro fp
    rw [List.foldl_cons, ih (fpAppend fp (keyOfPair p) (entryOf sid p)), fpAppend_lookup]
    by_cases hk : keyOfPair p = k
    · have hd : (decide (keyOfPair p = k)) = true := by simpa using hk
      rw [if_pos hk, List.filter_cons, hd, if_pos rfl]
      simp
    · have hd : (decide (keyOfPair p = k)) = false := by simpa using hk
      rw [if_neg hk, List.filter_cons, hd]
      simp only [Bool.false_eq_true, if_false]

theorem assembleAcc_lookup_some (ps : List (Peak × Peak)) (sid : String) (k : ℕ)
    (es : List Entry)
    (h : fpLookup (assembleAcc ps sid) k = some es) :
    es = (ps.filter fun p => decide (keyOfPair p = k)).map (entryOf sid) ∧ es ≠ [] := by
  have h1 := fpLookup_assemble_getD sid k ps []
  have h2 := fpLookup_assemble_none sid k ps []
  unfold assembleAcc at h
  rw [h] at h1 h2
  rw [Option.getD_some] at h1
  simp only [fpLookup] at h1 h2
  constructor
  · simpa using h1
  · intro hnil
    subst hnil
    have : (ps.filter fun p => decide (keyOfPair p = k)) = [] := by
      have := h1.symm
      simpa using this
    exact absurd (h2.mpr ⟨by trivial, this⟩) (by simp)

theorem fpAppend_ne_nil (fp : Fingerprint) (k : ℕ) (e : Entry) : fpAppend fp k e ≠ [] := by
  cases fp with
  | nil => simp [fpAppend]
  | cons kv fp =>
    obtain ⟨k0, l0⟩ := kv
    rw [fpAppend]
    split <;> simp

theorem assembleAcc_foldl_ne_nil (sid : String) :
    ∀ (ps : List (Peak × Peak)) (fp : Fingerprint), fp ≠ [] →
      ps.foldl (fun fp p => fpAppend fp (keyOfPair p) (entryOf sid p)) fp ≠ [] := by
  intro ps
  induction ps with
  | nil => intro fp h; exact h
  | cons p ps ih =>
    intro fp _
    rw [List.foldl_cons]
    exact ih _ (fpAppend_ne_nil fp (keyOfPair p) (entryOf sid p))

theorem assembleAcc_ne_nil (ps : List (Peak × Peak)) (sid : String) (h : ps ≠ []) :
    assembleAcc ps sid ≠ [] := by
  cases ps with
  | nil => exact absurd rfl h
  | cons p ps =>
    unfold assembleAcc
    rw [List.foldl_cons]
    exact assembleAcc_foldl_ne_nil sid ps _ (fpAppend_ne_nil [] (keyOfPair p) (entryOf sid p))

theorem gridRowMax_zero (r c i : ℕ) : ∀ n, gridRowMax (zeroGrid r c) i n = 0 := by
  intro n
  induction n with
  | zero => rfl
  | succ m ih =>
    rw [gridRowMax, ih, qmax_eq_max]
    exact max_self 0

theorem gridColMax_zero (r c : ℕ) : ∀ n, gridColMax (zeroGrid r c) n = 0 := by
  intro n
  induction n with
  | zero => exact gridRowMax_zero r c 0 _
  | succ m ih =>
    rw [gridColMax, ih, gridRowMax_zero, qmax_eq_max]
    exact max_self 0

theorem gridMax_zero (r c : ℕ) : gridMax (zeroGrid r c) = 0 :=
  gridColMax_zero r c _

theorem logSpecGrid_zero (f : ℚ → ℚ) (r c : ℕ) :
    logSpecGrid f (zeroGrid r c) = zeroGrid r c := by
  unfold logSpecGrid
  refine congrArg (Grid.mk r c) ?_
  funext i j
  rw [gridMax_zero]
  exact sub_self _

theorem amplitude_to_db_zero (f : ℚ → ℚ) (r c : ℕ) :
    amplitude_to_db f (zeroGrid r c) = zeroGrid r c := by
  unfold amplitude_to_db
  rw [logSpecGrid_zero, gridMax_zero]
  refine congrArg (Grid.mk r c) ?_
  funext i j
  show max (0 : ℚ) (0 - 80) = 0
  rw [max_eq_left (by norm_num)]

theorem peakCells_pairwise (g : Grid) :
    (peakCells g).Pairwise
      (fun c d : ℕ × ℕ => c.1 < d.1 ∨ (c.1 = d.1 ∧ c.2 < d.2)) := by
  unfold peakCells
  refine List.pairwise_flatMap.mpr ⟨?_, ?_⟩
  · intro b _
    refine List.pairwise_filterMap.mpr ?_
    refine (List.pairwise_lt_range g.cols).imp ?_
    intro f f' hff x hx y hy
    split at hx
    · split at hy
      · obtain rfl := Option.mem_some_iff.mp hx
        obtain rfl := Option.mem_some_iff.mp hy
        exact Or.inr ⟨rfl, hff⟩
      · exact absurd hy (by simp)
    · exact absurd hx (by simp)
  · refine (List.pairwise_lt_range g.rows).imp ?_
    intro b b' hbb x hx y hy
    obtain ⟨f, _, hfx⟩ := List.mem_filterMap.mp hx
    obtain ⟨f', _, hfy⟩ := List.mem_filterMap.mp hy
    split at hfx
    · split at hfy
      · obtain rfl := Option.some.injEq .. |>.mp hfx
        obtain rfl := Option.some.injEq .. |>.mp hfy
        exact Or.inl hbb
      · exact absurd hfy (by simp)
    · exact absurd hfx (by simp)

theorem frames_to_time_lt (sr : ℚ) (hsr : 0 < sr) (nfft : ℕ) (f f' : ℕ) (h : f < f') :
    frames_to_time sr nfft f < frames_to_time sr nfft f' := by
  unfold frames_to_time
  rw [div_lt_div_iff_of_pos_right hsr]
  exact_mod_cast Nat.add_lt_add_right (Nat.mul_lt_mul_of_lt_of_le h (le_refl 512) (by norm_num)) (nfft / 2)

theorem fft_frequencies_lt (sr : ℚ) (hsr : 0 < sr) (nfft : ℕ) (hn : 0 < nfft)
    (b b' : ℕ) (h : b < b') :
    fft_frequencies sr nfft b < fft_frequencies sr nfft b' := by
  unfold fft_frequencies
  have hn' : (0 : ℚ) < (nfft : ℚ) := by exact_mod_cast hn
  rw [div_lt_div_iff_of_pos_right hn']
  exact mul_lt_mul_of_pos_right (by exact_mod_cast h) hsr

theorem peaks_list_pairwise (g : Grid) (sr : ℚ) (hsr : 0 < sr) (hr : 2 ≤ g.rows) :
    (peaks_list g sr).Pairwise (fun p q : Peak => p.1 = q.1 → p.2 < q.2) := by
  unfold peaks_list
  have hn : 0 < (g.rows - 1) * 2 := by omega
  refine List.Pairwise.map _ ?_ (peakCells_pairwise g)
  intro c d hcd heq
  rcases hcd with hlt | ⟨_, hfl⟩
  · exact fft_frequencies_lt sr hsr ((g.rows - 1) * 2) hn c.1 d.1 hlt
  · exact absurd heq (ne_of_lt (frames_to_time_lt sr hsr ((g.rows - 1) * 2) c.2 d.2 hfl))

/-! ## Claim theorems -/

set_option maxRecDepth 8000 in
/-- C1 counterexample: the two key inputs `(100.25, 300, 0.125)` and
`(100.0, 300, 0.125)` have equal quantized inputs (frequencies to the
nearest Hz, time delta to the nearest millisecond), yet the key of line 71
differs on them, because the source hashes the raw float triple without any
quantization. -/
theorem claim_C1_counterexample :
    quantizeHz (401/4) = quantizeHz 100 ∧ quantizeHz 300 = quantizeHz 300 ∧
      quantizeMs (1/8) = quantizeMs (1/8) ∧
      pyHash3 (401/4) 300 (1/8) ≠ pyHash3 100 300 (1/8) :=
  ⟨by decide, rfl, rfl, by decide⟩

/-- C1 (corrected): the fingerprint key is the built-in tuple hash of the
raw `(anchor_freq, target_freq, time_delta)` values, with no quantization;
two pairs whose raw inputs are exactly equal always receive identical keys,
but pairs whose inputs agree only after quantization may not. -/
theorem claim_C1 (af tf dt af' tf' dt' : ℚ)
    (h1 : af = af') (h2 : tf = tf') (h3 : dt = dt') :
    pyHash3 af tf dt = pyHash3 af' tf' dt' := by
  subst h1; subst h2; subst h3; rfl

/-- C1 witness: the amended claim applied at the concrete raw triple
`(100, 300, 1/8)`. -/
theorem claim_C1_witness :
    (100 : ℚ) = 100 ∧ (300 : ℚ) = 300 ∧ (1/8 : ℚ) = 1/8 ∧
      pyHash3 100 300 (1/8) = pyHash3 100 300 (1/8) :=
  ⟨rfl, rfl, rfl, claim_C1 100 300 (1/8) 100 300 (1/8) rfl rfl rfl⟩

/-- C2 (confirmed): a spectrogram cell is selected as a peak iff its dB
value equals the maximum dB value over the square neighborhood of side 15
centred on it (the maximum the filter of line 35 computes, whose boundary
treatment is the subject of the separate boundary claim) and its value is
strictly greater than the amplitude threshold of -50 dB. -/
theorem claim_C2 (g : Grid) (b f : ℕ) (hb : b < g.rows) (hf : f < g.cols) :
    (b, f) ∈ peakCells g ↔
      (g.val b f = local_max g b f ∧ g.val b f > amplitude_threshold) := by
  rw [mem_peakCells]
  constructor
  · rintro ⟨_, _, h1, h2⟩; exact ⟨h1, h2⟩
  · rintro ⟨h1, h2⟩; exact ⟨hb, hf, h1, h2⟩

set_option maxRecDepth 8000 in
/-- C2 witness: the characterization applied to the cell `(0, 0)` of the
all-zero `1 x 1` grid, where it is a peak. -/
theorem claim_C2_witness :
    (0 : ℕ) < (zeroGrid 1 1).rows ∧ (0 : ℕ) < (zeroGrid 1 1).cols ∧
      ((0, 0) ∈ peakCells (zeroGrid 1 1) ↔
        ((zeroGrid 1 1).val 0 0 = local_max (zeroGrid 1 1) 0 0 ∧
          (zeroGrid 1 1).val 0 0 > amplitude_threshold)) :=
  ⟨by decide, by decide, claim_C2 (zeroGrid 1 1) 0 0 (by decide) (by decide)⟩

set_option maxRecDepth 8000 in
/-- C3 counterexample: on the `1 x 1` grid holding `-10` dB, the single
cell equals the maximum over the in-bounds part of its neighborhood (the
claimed minimum-padding semantics) and clears the threshold, yet it is not
selected as a peak: the filter of line 35 pads with the constant `0`,
which dominates every negative dB value. -/
theorem claim_C3_counterexample :
    (gEdge.val 0 0 = local_max_inb gEdge 0 0 ∧
      gEdge.val 0 0 > amplitude_threshold) ∧
      (0, 0) ∉ peakCells gEdge :=
  ⟨⟨by decide, by decide⟩, by decide⟩

/-- C3 (corrected): cells outside the spectrogram bounds enter the
neighborhood maximum as the constant `0` dB (scipy `mode='constant'` with
the default `cval=0.0`), not as the minimum possible value; consequently a
cell within 7 bins or frames of a border whose own value is negative can
never be selected as a peak, even when it dominates the in-bounds part of
its neighborhood. -/
theorem claim_C3 (g : Grid) (b f : ℕ) (hb : b < g.rows) (hf : f < g.cols)
    (hneg : g.val b f < 0)
    (hedge : b < 7 ∨ f < 7 ∨ g.rows ≤ b + 7 ∨ g.cols ≤ f + 7) :
    (b, f) ∉ peakCells g := by
  intro hmem
  have h := (mem_peakCells g b f).mp hmem
  have key : ∀ di dj : ℕ, di ≤ 14 → dj ≤ 14 →
      ¬(0 ≤ (b : ℤ) + (di : ℤ) - 7 ∧ (b : ℤ) + (di : ℤ) - 7 < (g.rows : ℤ) ∧
        0 ≤ (f : ℤ) + (dj : ℤ) - 7 ∧ (f : ℤ) + (dj : ℤ) - 7 < (g.cols : ℤ)) →
      (0 : ℚ) ≤ local_max g b f := by
    intro di dj hdi hdj hout
    have hp := padVal_le_local_max g b f di dj hdi hdj
    rw [padVal, if_neg hout] at hp
    exact hp
  have hlm : (0 : ℚ) ≤ local_max g b f := by
    rcases hedge with h7 | h7 | h7 | h7
    · exact key 0 7 (by norm_num) (by norm_num) (by rintro ⟨h1, -⟩; omega)
    · exact key 7 0 (by norm_num) (by norm_num) (by rintro ⟨-, -, h1, -⟩; omega)
    · exact key 14 7 (by norm_num) (by norm_num) (by rintro ⟨-, h1, -⟩; omega)
    · exact key 7 14 (by norm_num) (by norm_num) (by rintro ⟨-, -, -, h1⟩; omega)
  exact absurd h.2.2.1 (ne_of_lt (lt_of_lt_of_le hneg hlm))

set_option maxRecDepth 8000 in
/-- C3 witness: the amended claim applied to the corner cell of the
`2 x 2` grid holding `-10` dB. -/
theorem claim_C3_witness :
    (0 : ℕ) < gEdgeW.rows ∧ (0 : ℕ) < gEdgeW.cols ∧ gEdgeW.val 0 0 < 0 ∧
      ((0 : ℕ) < 7 ∨ (0 : ℕ) < 7 ∨ gEdgeW.rows ≤ 0 + 7 ∨ gEdgeW.cols ≤ 0 + 7) ∧
      (0, 0) ∉ peakCells gEdgeW :=
  ⟨by decide, by decide, by decide, Or.inl (by decide),
    claim_C3 gEdgeW 0 0 (by decide) (by decide) (by decide) (Or.inl (by decide))⟩

/-- C4 (confirmed): every landmark pair `(a, t)` produced by the pairing
loop with zone start offset 0.1 s, duration 0.8 s and frequency width
200 Hz satisfies `a.time + 0.1 <= t.time <= a.time + 0.1 + 0.8` and
`|t.frequency - a.frequency| <= 200`, all bounds inclusive. -/
theorem claim_C4 (l : List Peak) (a t : Peak) (h : (a, t) ∈ pairPeaks l) :
    a.1 + 1/10 ≤ t.1 ∧ t.1 ≤ a.1 + 1/10 + 4/5 ∧ |t.2 - a.2| ≤ 200 := by
  have hz := (mem_pairPeaks l (a, t) h).2
  exact ⟨hz.1, hz.2.1, abs_le.mpr ⟨by linarith [hz.2.2.1], by linarith [hz.2.2.2]⟩⟩

set_option maxRecDepth 8000 in
/-- C4 witness: the zone containment applied to the concrete pair produced
from the two-peak list `peaksW`. -/
theorem claim_C4_witness :
    (pairA ∈ pairPeaks peaksW) ∧
      (pairA.1.1 + 1/10 ≤ pairA.2.1 ∧ pairA.2.1 ≤ pairA.1.1 + 1/10 + 4/5 ∧
        |pairA.2.2 - pairA.1.2| ≤ 200) :=
  ⟨by decide, claim_C4 peaksW pairA.1 pairA.2 (by decide)⟩

/-- C5 (confirmed): on every time-sorted peak list, the pairing loop that
stops scanning as soon as a candidate time exceeds the upper bound of the
window produces exactly the same list of landmark pairs as a full scan of
all later peaks with the same membership test. -/
theorem claim_C5 (l : List Peak) (h : l.Pairwise fun p q => p.1 ≤ q.1) :
    pairPeaks l = pairPeaksFull l :=
  pairPeaks_eq_pairPeaksFull' l h

set_option maxRecDepth 8000 in
/-- C5 witness: the equivalence applied to the concrete sorted two-peak
list `peaksW`. -/
theorem claim_C5_witness :
    (peaksW.Pairwise fun p q => p.1 ≤ q.1) ∧ pairPeaks peaksW = pairPeaksFull peaksW :=
  ⟨by decide, claim_C5 peaksW (by decide)⟩

set_option maxRecDepth 8000 in
/-- C6 (code bug): the claim states that an all-zero waveform of any length
yields an empty fingerprint, but the code returns a non-empty fingerprint
on silence long enough to pair: with `ref=np.max` the dB conversion of the
all-zero magnitude spectrogram (here 2 bins by 7 frames, the shape scale
kept small; the argument is independent of the logarithm used) produces the
all-zero dB grid, every cell then equals its neighborhood maximum and
exceeds -50 dB, so every cell becomes a peak and pairs form. -/
theorem claim_C6 (log10q : ℚ → ℚ) :
    fingerprintFromMags log10q (zeroGrid 2 7) 22050 "song" ≠ [] := by
  unfold fingerprintFromMags
  rw [amplitude_to_db_zero]
  rw [if_pos (by decide)]
  exact assembleAcc_ne_nil _ "song" (by decide)

/-- C7 (confirmed): the peak list fed to the pairing stage is sorted by
ascending time with ties in time broken by ascending frequency, so the
pairing input order is fully determined by the (time, frequency) values:
the stable sort by time of line 49 receives the peaks in row-major
(bin-major) order from np.where, which lists equal-frame peaks in
ascending bin order. -/
theorem claim_C7 (g : Grid) (sr : ℚ) (hsr : 0 < sr) (hr : 2 ≤ g.rows) :
    (sortPeaksByTime (peaks_list g sr)).Pairwise
      (fun p q : Peak => p.1 < q.1 ∨ (p.1 = q.1 ∧ p.2 < q.2)) :=
  sortPeaksByTime_pairwise_lex _ (peaks_list_pairwise g sr hsr hr)

set_option maxRecDepth 8000 in
/-- C7 witness: the strict (time, frequency) ordering of the sorted peak
list of the all-zero 2 by 3 grid at sample rate 22050. -/
theorem claim_C7_witness :
    (0 : ℚ) < 22050 ∧ 2 ≤ (zeroGrid 2 3).rows ∧
      (sortPeaksByTime (peaks_list (zeroGrid 2 3) 22050)).Pairwise
        (fun p q : Peak => p.1 < q.1 ∨ (p.1 = q.1 ∧ p.2 < q.2)) :=
  ⟨by norm_num, by decide, claim_C7 (zeroGrid 2 3) 22050 (by norm_num) (by decide)⟩

/-- C8 counterexample: the claim states that an internal failure surfaces
to the caller as an error outcome distinct from an empty fingerprint; but
the broad handler of lines 77-79 catches the exception and returns the
empty dictionary. -/
theorem claim_C8_counterexample :
    fingerprint_song (fun _ => 0) (Except.error "DecodeError") "song" = [] := rfl

/-- C8 (corrected): the engine catches every internal failure (lines 77-79
print and return the empty dictionary), so a failing input and a
legitimate no-signal input (here a spectrogram with no frames) are
indistinguishable in the returned value: both give the empty fingerprint. -/
theorem claim_C8 (log10q : ℚ → ℚ) (msg : String) (sid : String) :
    fingerprint_song log10q (Except.error msg) sid = [] ∧
      fingerprint_song log10q (Except.ok (zeroGrid 1 0, 22050)) sid = [] :=
  ⟨rfl, rfl⟩

set_option maxRecDepth 8000 in
/-- C9 counterexample: the claim states the assembler stores the entry
`(anchor.time, songId)`; the code of line 72 stores `(song_id, anchor_time)`
with the components in the opposite order: the entry recorded for the pair
`pairA` under its key has the song identifier first. -/
theorem claim_C9_counterexample :
    fpLookup (assembleAcc [pairA] "s") (keyOfPair pairA)
        = some [(PyVal.str "s", PyVal.num 0)] ∧
      ((PyVal.str "s", PyVal.num 0) : Entry) ≠ (PyVal.num 0, PyVal.str "s") :=
  ⟨by decide, by decide⟩

/-- C9 (corrected): in accumulate mode, for each landmark pair in
production order the assembler builds the entry `(songId, anchor.time)`
(components in this order, per line 72) and appends it to the collection
stored under the key of the pair, preserving insertion order; a key hit
more than once accumulates all its entries. -/
theorem claim_C9 (ps : List (Peak × Peak)) (sid : String) (k : ℕ) (es : List Entry)
    (h : fpLookup (assembleAcc ps sid) k = some es) :
    es = (ps.filter fun p => decide (keyOfPair p = k)).map
      (fun p => (PyVal.str sid, PyVal.num p.1.1)) :=
  (assembleAcc_lookup_some ps sid k es h).1

set_option maxRecDepth 8000 in
/-- C9 witness: the two pairs `pairA` and `pairB` share their key (equal
frequencies and time delta); the assembled collection under that key
accumulates both entries in production order. -/
theorem claim_C9_witness :
    fpLookup (assembleAcc [pairA, pairB] "s") (keyOfPair pairA)
        = some [(PyVal.str "s", PyVal.num 0), (PyVal.str "s", PyVal.num 1)] ∧
      [(PyVal.str "s", PyVal.num 0), (PyVal.str "s", PyVal.num 1)] =
        (([pairA, pairB].filter fun p => decide (keyOfPair p = keyOfPair pairA)).map
          (fun p => (PyVal.str "s", PyVal.num p.1.1))) :=
  ⟨by decide, claim_C9 [pairA, pairB] "s" (keyOfPair pairA) _ (by decide)⟩

/-- C10 (confirmed): in every fingerprint returned by the engine, each key
present maps to a non-empty list of entries whose anchor times are in
nondecreasing order: anchors are processed in ascending time order and
entries are only ever appended. -/
theorem claim_C10 (log10q : ℚ → ℚ) (loaded : Except String (Grid × ℚ)) (sid : String)
    (k : ℕ) (es : List Entry)
    (h : fpLookup (fingerprint_song log10q loaded sid) k = some es) :
    es ≠ [] ∧ es.Chain' (fun e e' => entryTime e ≤ entryTime e') := by
  cases loaded with
  | error msg =>
    rw [show fingerprint_song log10q (Except.error msg) sid = [] from rfl] at h
    exact absurd h (by simp [fpLookup])
  | ok p =>
    obtain ⟨mags, sr⟩ := p
    rw [show fingerprint_song log10q (Except.ok (mags, sr)) sid
        = fingerprintFromMags log10q mags sr sid from rfl] at h
    unfold fingerprintFromMags at h
    split at h
    next hc =>
      obtain ⟨hes, hne⟩ := assembleAcc_lookup_some _ sid k es h
      refine ⟨hne, ?_⟩
      rw [hes]
      apply List.Pairwise.chain'
      exact List.Pairwise.map (entryOf sid) (fun p q hpq => hpq)
        (List.Pairwise.sublist (List.filter_sublist _)
          (pairPeaks_anchor_mono _ (sortPeaksByTime_sorted _)))
    next hc => exact absurd h (by simp [fpLookup])

set_option maxRecDepth 8000 in
/-- C10 witness: the invariant applied to the fingerprint returned for the
all-zero 2 by 7 magnitude grid, at the key of the single pair joining the
frames 0 and 6 of the upper frequency bin. -/
theorem claim_C10_witness :
    fpLookup (fingerprint_song (fun _ => 0) (Except.ok (zeroGrid 2 7, 22050)) "song")
        (keyOfPair ((1/22050, 11025), (3073/22050, 11025)))
      = some [(PyVal.str "song", PyVal.num (1/22050))] ∧
      ([(PyVal.str "song", PyVal.num (1/22050))] ≠ ([] : List Entry) ∧
        [(PyVal.str "song", PyVal.num (1/22050))].Chain'
          (fun e e' => entryTime e ≤ entryTime e')) :=
  ⟨by decide, claim_C10 (fun _ => 0) (Except.ok (zeroGrid 2 7, 22050)) "song"
    (keyOfPair ((1/22050, 11025), (3073/22050, 11025))) _ (by decide)⟩
